import Mathlib

/-!
Verification of the CCPT-V experiment script (`CCPT-V_lsl.py`).

The development shallowly embeds the two pieces of core logic:

* the trial-sequence generator `create_trial_sequence` (source lines 120-170),
  including a faithful model of CPython's IEEE-754 double arithmetic in
  `int(num_trials * 0.30)` and `int(num_trials * 0.175)`;
* the main-session per-trial loop (source lines 254-318): key collection,
  the response window, abort handling, scoring, and the LSL markers.

Randomness is modelled by explicit parameters: `random.choice` becomes an
oracle stream `pick : Nat -> Nat` indexing into the candidate list, and
`random.shuffle` becomes a function parameter constrained (in the theorems)
to return a permutation of its input.
-/

namespace CCPT

/-! ## IEEE-754 binary64 model of the count computations

CPython evaluates `num_trials * 0.30` by converting the int to a double
(one rounding) and multiplying by the double nearest 0.30 (a second
rounding), then `int(...)` truncates toward zero.  The doubles nearest
0.30 and 0.175 are the dyadic rationals
`SIG03 / 2^54` and `SIG0175 / 2^55` below. -/

/-- The 53-bit significand of the IEEE-754 double nearest 0.30:
`0.30 = SIG03 / 2^54` up to rounding (`SIG03 = round(1.2 * 2^52) * 1`). -/
def SIG03 : Nat := 5404319552844595

/-- The 53-bit significand of the IEEE-754 double nearest 0.175:
`0.175 = SIG0175 / 2^55` up to rounding. -/
def SIG0175 : Nat := 6305039478318694

/-- Fuelled binary logarithm: `lg2F f n` is `floor (log2 n)` whenever
`1 <= n <= f`.  Written with explicit fuel so that the kernel can
evaluate it by structural recursion. -/
def lg2F : Nat → Nat → Nat
  | 0, _ => 0
  | f + 1, n => if n ≤ 1 then 0 else lg2F f (n / 2) + 1

/-- `lg2 n` is `floor (log2 n)` for `n >= 1`. -/
def lg2 (n : Nat) : Nat := lg2F n n

/-- Round the integer `P` to the nearest IEEE-754 binary64 value
(53 significant bits, ties to even), returned as an integer.  For the
magnitudes occurring in this development the result is always an
integer, so no denominator is needed.  `P < 2^53` is exactly
representable; otherwise the low `r = floor(log2 P) - 52` bits are
rounded off. -/
def flNum (P : Nat) : Nat :=
  if P < 2 ^ 53 then P
  else
    let r := lg2 P - 52
    let q := P / 2 ^ r
    let rem := P % 2 ^ r
    let half := 2 ^ (r - 1)
    if half < rem ∨ (rem = half ∧ q % 2 = 1) then (q + 1) * 2 ^ r else q * 2 ^ r

/-- CPython's `int(n * c)` for a nonnegative int `n` and the double
`c = sig / 2^shift`: the int is first rounded to a double, the product is
rounded again, and the truncation of the (positive) result is the
quotient by `2^shift`. -/
def pyCount (sig shift n : Nat) : Nat := flNum (flNum n * sig) / 2 ^ shift

/-- CPython's `int(n * c)` for an arbitrary int `n`: both the double
rounding and `int` truncation are symmetric about zero. -/
def pyMulInt (sig shift : Nat) (n : Int) : Int :=
  if 0 ≤ n then (pyCount sig shift n.toNat : Int) else -(pyCount sig shift (-n).toNat : Int)

/-- Source line 124: `target_count = int(num_trials * 0.30)`. -/
def target_count (n : Int) : Int := pyMulInt SIG03 54 n

/-- Source line 125: `non_red_square_count = int(num_trials * 0.175)`. -/
def non_red_square_count (n : Int) : Int := pyMulInt SIG0175 55 n

/-- Source line 126: `red_non_square_count = int(num_trials * 0.175)`. -/
def red_non_square_count (n : Int) : Int := pyMulInt SIG0175 55 n

/-- Source line 127: `other_count = num_trials - target_count -
non_red_square_count - red_non_square_count`. -/
def other_count (n : Int) : Int :=
  n - target_count n - non_red_square_count n - red_non_square_count n

/-! ## Stimuli and trials -/

/-- Source line 52. -/
def shapes : List String :=
  ["square", "circle", "triangle", "star", "diamond", "rectangle", "hexagon", "pentagon"]

/-- Source line 53. -/
def colors : List String :=
  ["red", "blue", "green", "yellow", "pink", "orange"]

/-- `[s for s in shapes if s != 'square']` (source lines 140, 145). -/
def nonSquareShapes : List String := shapes.filter (fun s => decide (s ≠ "square"))

/-- `[c for c in colors if c != 'red']` (source lines 135, 146). -/
def nonRedColors : List String := colors.filter (fun c => decide (c ≠ "red"))

/-- A trial dict as first created (source lines 130-147), before the
`isi` key is added. -/
structure PreTrial where
  shape : String
  color : String
  is_target : Bool
deriving DecidableEq, Repr

/-- A trial dict after `trial['isi'] = isi_list[i]` (source line 168).
The ISI is recorded in milliseconds: the source values
`[0.400, 0.600, 0.800, 1]` seconds become `[400, 600, 800, 1000]`. -/
structure Trial extends PreTrial where
  isi : Nat
deriving DecidableEq, Repr

/-- `random.choice l` modelled by an oracle-supplied index: the result is
`l[k % len l]`, hence always an element of a nonempty `l`. -/
def choiceAt (l : List α) (d : α) (k : Nat) : α := l.getD (k % l.length) d

/-- Source lines 130-131: the target trials (red squares). -/
def targetBlock (n : Int) : List PreTrial :=
  List.replicate (target_count n).toNat ⟨"square", "red", true⟩

/-- Source lines 134-136: non-red squares, colors drawn by the oracle. -/
def nonRedSquareBlock (n : Int) (pick : Nat → Nat) : List PreTrial :=
  (List.range (non_red_square_count n).toNat).map
    (fun j => ⟨"square", choiceAt nonRedColors "blue" (pick j), false⟩)

/-- Index of the first oracle value consumed after the non-red squares. -/
def aOff (n : Int) : Nat := (non_red_square_count n).toNat

/-- Source lines 139-141: red non-squares, shapes drawn by the oracle. -/
def redNonSquareBlock (n : Int) (pick : Nat → Nat) : List PreTrial :=
  (List.range (red_non_square_count n).toNat).map
    (fun j => ⟨choiceAt nonSquareShapes "circle" (pick (aOff n + j)), "red", false⟩)

/-- Index of the first oracle value consumed after the red non-squares. -/
def bOff (n : Int) : Nat := aOff n + (red_non_square_count n).toNat

/-- Source lines 144-147: neither red nor square; shape and color drawn
independently (two oracle values per trial). -/
def otherBlock (n : Int) (pick : Nat → Nat) : List PreTrial :=
  (List.range (other_count n).toNat).map
    (fun j => ⟨choiceAt nonSquareShapes "circle" (pick (bOff n + 2 * j)),
               choiceAt nonRedColors "blue" (pick (bOff n + 2 * j + 1)), false⟩)

/-- Index of the first oracle value consumed by the extra-ISI draws. -/
def pickOff (n : Int) : Nat := bOff n + 2 * (other_count n).toNat

/-- The concatenated category blocks, before `random.shuffle(trials)`
(source lines 129-147). -/
def preTrials (n : Int) (pick : Nat → Nat) : List PreTrial :=
  targetBlock n ++ nonRedSquareBlock n pick ++ redNonSquareBlock n pick ++ otherBlock n pick

/-- Source line 153: `isis = [0.400, 0.600, 0.800, 1]`, in milliseconds. -/
def isis : List Nat := [400, 600, 800, 1000]

/-- Source lines 154-157: each ISI value replicated `len(trials) // 4`
times, grouped by value. -/
def isiBase (len : Nat) : List Nat :=
  isis.flatMap (fun v => List.replicate (len / 4) v)

/-- Source lines 160-161: random extra ISI values appended until the pool
has one entry per trial. -/
def isiExtras (len : Nat) (pick : Nat → Nat) (off : Nat) : List Nat :=
  (List.range (len - 4 * (len / 4))).map (fun j => choiceAt isis 400 (pick (off + j)))

/-- The full ISI pool before `random.shuffle(isi_list)`. -/
def isiPool (len : Nat) (pick : Nat → Nat) (off : Nat) : List Nat :=
  isiBase len ++ isiExtras len pick off

/-- The shuffled ISI pool that is assigned positionally to the shuffled
trials (source lines 163-168). -/
def isiAssignment (n : Int) (shuffleT : List PreTrial → List PreTrial)
    (shuffleI : List Nat → List Nat) (pick : Nat → Nat) : List Nat :=
  shuffleI (isiPool (shuffleT (preTrials n pick)).length pick (pickOff n))

/-- Source lines 120-170: the full generator.  `shuffleT` and `shuffleI`
stand for the two `random.shuffle` calls, `pick` for the stream of
`random.choice` draws.  Trial `i` of the shuffled trial list receives
entry `i` of the shuffled ISI pool. -/
def create_trial_sequence (n : Int) (shuffleT : List PreTrial → List PreTrial)
    (shuffleI : List Nat → List Nat) (pick : Nat → Nat) : List Trial :=
  List.zipWith (fun pt v => Trial.mk pt v)
    (shuffleT (preTrials n pick)) (isiAssignment n shuffleT shuffleI pick)

/-- A constant choice oracle, used for concrete instantiations. -/
def pick0 : Nat → Nat := fun _ => 0

/-! ## Main-session trial runner (source lines 254-318)

Time is measured in integer milliseconds on `trial_clock`, the clock
created at stimulus onset (source line 275).  Each trial receives the
list of key events that reach its buffer, in arrival order:

* events with `t <= 0` were pressed before onset (during the ISI wait or
  earlier) and sit in the PsychoPy buffer; `event.getKeys` at line 276
  collects them all at onset;
* events with `0 < t` are collected by whichever poll of the
  `while trial_clock.getTime() < timeout` loop (lines 285-293) runs at or
  after time `t`; the loop polls continuously until the clock reaches
  `timeout`, so exactly the events with `t < timeout` are collected;
* `escape` events with `timeout <= t` are picked up by the
  `event.getKeys(['escape'])` check at line 313. -/

/-- The stimulus is presented for 200 ms (source line 279). -/
def presentationMs : Int := 200

/-- Source line 284: `timeout = 0.5`, compared against `trial_clock`,
which started at stimulus onset. -/
def timeoutMs : Int := 500

/-- A timestamped key event; `t` is milliseconds on `trial_clock`
(so `t <= 0` means the key was buffered before stimulus onset). -/
structure KeyEv where
  key : String
  t : Int
deriving DecidableEq, Repr

/-- One row of the CSV result sink (source line 310). -/
structure TrialResult where
  trial : Trial
  responded : Bool
  rt : Option Int
  correct : Bool
deriving DecidableEq, Repr

/-- The contents of `keys` after the response loop ends: the onset batch
plus everything the loop collected, i.e. every event with `t < timeout`,
in arrival order. -/
def collectedKeys (evs : List KeyEv) : List KeyEv :=
  evs.filter (fun e => decide (e.t < timeoutMs))

/-- The abort test inside the response loop (source lines 287-293) fires
only at a poll whose `these_keys` is nonempty, and then looks for
`escape` among all of `keys`.  So the session dies inside the loop iff
some event arrives during the loop (`0 < t < timeout`) and an `escape`
is among the keys collected by then; quantifying over arrival order this
is: some event has `0 < t < timeout` and some escape has `t < timeout`. -/
def abortInLoop (evs : List KeyEv) : Bool :=
  (evs.any (fun e => decide (0 < e.t) && decide (e.t < timeoutMs))) &&
  (evs.any (fun e => decide (e.key = "escape") && decide (e.t < timeoutMs)))

/-- The `event.getKeys(['escape'])` check at source line 313: an escape
pressed after the response loop closed (it would still be in the buffer,
since line 276 and the loop consumed everything earlier). -/
def postLoopEscape (evs : List KeyEv) : Bool :=
  evs.any (fun e => decide (e.key = "escape") && decide (timeoutMs ≤ e.t))

/-- Source lines 296-310: `response = 'space' in keys`, `rt` is the first
`space` in collection order, `correct = (is_target and response) or
(not is_target and not response)`. -/
def scoreTrial (tr : Trial) (evs : List KeyEv) : TrialResult :=
  let keys := collectedKeys evs
  let response := keys.any (fun e => decide (e.key = "space"))
  let rt := (keys.find? (fun e => decide (e.key = "space"))).map (fun e => e.t)
  { trial := tr, responded := response, rt := rt,
    correct := (tr.is_target && response) || (!tr.is_target && !response) }

/-- The LSL markers pushed by the main loop (source lines 259, 269, 281,
303, 290/314, 318). -/
inductive Marker where
  | isiStart (idx : Nat)
  | stim (idx : Nat) (shape color : String) (target : Bool)
  | stimOffset (idx : Nat)
  | response (idx : Nat) (rt : Int)
  | abortedMark
  | completeMark
deriving DecidableEq, Repr

/-- What a session run produces: the CSV rows written, the markers
pushed, and whether `core.quit()` ended the process from inside the
response loop. -/
structure SessionOut where
  results : List TrialResult
  markers : List Marker
  quitEarly : Bool
deriving DecidableEq, Repr

/-- The main experimental loop (source lines 254-318), one trial at a
time.  `idx` is `trial_num`.  Markers per trial: `isi_{n}` on entering
the ISI wait, the stimulus marker at onset, `stim_offset_{n}` after the
200 ms presentation, a response marker iff a space was collected.  An
escape seen inside the response loop kills the process before the CSV
row is written (lines 289-293); an escape caught at line 313 writes the
row first, then breaks out of the loop, after which line 318 still
pushes `experiment_complete`. -/
def runTrials : List Trial → List (List KeyEv) → Nat → SessionOut
  | [], _, _ => ⟨[], [Marker.completeMark], false⟩
  | tr :: rest, inputs, idx =>
    let evs := inputs.headD []
    let pre := [Marker.isiStart idx, Marker.stim idx tr.shape tr.color tr.is_target,
                Marker.stimOffset idx]
    if abortInLoop evs then
      ⟨[], pre ++ [Marker.abortedMark], true⟩
    else
      let r := scoreTrial tr evs
      let respM : List Marker :=
        match r.rt with
        | some v => [Marker.response idx v]
        | none => []
      if postLoopEscape evs then
        ⟨[r], pre ++ respM ++ [Marker.abortedMark, Marker.completeMark], false⟩
      else
        let tailOut := runTrials rest inputs.tail (idx + 1)
        ⟨r :: tailOut.results, pre ++ respM ++ tailOut.markers, tailOut.quitEarly⟩

/-- A whole main session: `trial_num` starts at 1 (source lines 252-255). -/
def runSession (trials : List Trial) (inputs : List (List KeyEv)) : SessionOut :=
  runTrials trials inputs 1

/-! ## Category predicates -/

/-- The target category: square and red. -/
def pTarget (pt : PreTrial) : Bool :=
  decide (pt.shape = "square") && decide (pt.color = "red")

/-- Non-target squares: square but not red. -/
def pSquareOther (pt : PreTrial) : Bool :=
  decide (pt.shape = "square") && !decide (pt.color = "red")

/-- Red non-squares. -/
def pRedOther (pt : PreTrial) : Bool :=
  !decide (pt.shape = "square") && decide (pt.color = "red")

/-- Neither square nor red. -/
def pNeither (pt : PreTrial) : Bool :=
  !decide (pt.shape = "square") && !decide (pt.color = "red")

/-! ## Statement-level definitions for the claims -/

/-- The markers one resolved (non-aborting) trial pushes, in order:
ISI start, stimulus onset with its payload, stimulus offset, and a
response marker exactly when a space was collected. -/
def trialMarkers (idx : Nat) (tr : Trial) (evs : List KeyEv) : List Marker :=
  [Marker.isiStart idx, Marker.stim idx tr.shape tr.color tr.is_target,
   Marker.stimOffset idx] ++
  (match (scoreTrial tr evs).rt with
   | some v => [Marker.response idx v]
   | none => [])

/-- The marker stream of a session in which no abort path is taken:
each trial contributes `trialMarkers`, then the completion marker. -/
def expectedMarkers : List Trial → List (List KeyEv) → Nat → List Marker
  | [], _, _ => [Marker.completeMark]
  | tr :: rest, inputs, idx =>
    trialMarkers idx tr (inputs.headD []) ++ expectedMarkers rest inputs.tail (idx + 1)

/-- The CSV rows of a session in which no abort path is taken: one
scored record per trial, in trial order. -/
def expectedResults : List Trial → List (List KeyEv) → List TrialResult
  | [], _ => []
  | tr :: rest, inputs => scoreTrial tr (inputs.headD []) :: expectedResults rest inputs.tail

/-- No input list of the session takes either abort path. -/
def NoAbortInputs (inputs : List (List KeyEv)) : Prop :=
  ∀ evs ∈ inputs, abortInLoop evs = false ∧ postLoopEscape evs = false

/-- The category-count conclusion of (amended) claim C1 for one run of
the generator. -/
def CountsInvariant (n : Int) (sT : List PreTrial → List PreTrial)
    (sI : List Nat → List Nat) (pick : Nat → Nat) : Prop :=
  (create_trial_sequence n sT sI pick).length = n.toNat ∧
  (create_trial_sequence n sT sI pick).countP (fun t => pTarget t.toPreTrial) =
    (target_count n).toNat ∧
  (create_trial_sequence n sT sI pick).countP (fun t => pSquareOther t.toPreTrial) =
    (non_red_square_count n).toNat ∧
  (create_trial_sequence n sT sI pick).countP (fun t => pRedOther t.toPreTrial) =
    (red_non_square_count n).toNat ∧
  (create_trial_sequence n sT sI pick).countP (fun t => pNeither t.toPreTrial) =
    n.toNat - ((target_count n).toNat + (non_red_square_count n).toNat +
      (red_non_square_count n).toNat)

/-- The ISI-distribution conclusion of claim C5 for one generator run:
the assigned ISIs are exactly the shuffled pool (positionally), the pool
has one entry per trial, each of the four values occurs at least
`N / 4` times, and every assigned value is one of the four. -/
def IsiInvariant (n : Int) (sT : List PreTrial → List PreTrial)
    (sI : List Nat → List Nat) (pick : Nat → Nat) : Prop :=
  (create_trial_sequence n sT sI pick).map (fun t => t.isi) = isiAssignment n sT sI pick ∧
  (isiAssignment n sT sI pick).length = n.toNat ∧
  (∀ v ∈ isis, n.toNat / 4 ≤ (isiAssignment n sT sI pick).count v) ∧
  (∀ t ∈ create_trial_sequence n sT sI pick, t.isi ∈ isis) ∧
  (isiAssignment n sT sI pick).count 400 + (isiAssignment n sT sI pick).count 600 +
    (isiAssignment n sT sI pick).count 800 + (isiAssignment n sT sI pick).count 1000 = n.toNat

/-- The target-rule conclusion of claim C7 for one generator run. -/
def TargetRule (n : Int) (sT : List PreTrial → List PreTrial)
    (sI : List Nat → List Nat) (pick : Nat → Nat) : Prop :=
  (∀ t ∈ create_trial_sequence n sT sI pick, t.is_target = pTarget t.toPreTrial) ∧
  (∀ pt ∈ targetBlock n, pt.shape = "square" ∧ pt.color = "red" ∧ pt.is_target = true) ∧
  (∀ pt ∈ nonRedSquareBlock n pick,
    pt.shape = "square" ∧ pt.color ≠ "red" ∧ pt.is_target = false) ∧
  (∀ pt ∈ redNonSquareBlock n pick,
    pt.shape ≠ "square" ∧ pt.color = "red" ∧ pt.is_target = false) ∧
  (∀ pt ∈ otherBlock n pick,
    pt.shape ≠ "square" ∧ pt.color ≠ "red" ∧ pt.is_target = false)

/-- A concrete target trial (red square, 400 ms ISI). -/
def trialRedSquare : Trial := ⟨⟨"square", "red", true⟩, 400⟩

/-- A concrete non-target trial (blue circle, 400 ms ISI). -/
def trialBlueCircle : Trial := ⟨⟨"circle", "blue", false⟩, 400⟩

/-- Ten identical non-target trials, for the abort scenario of claim C4. -/
def tenTrials : List Trial := List.replicate 10 trialBlueCircle

/-- The abort scenario of claim C4: an escape pressed during trial 4's
ISI wait (300 ms before that trial's stimulus onset) and no other key
events in the whole session. -/
def escapeDuringIsi4 : List (List KeyEv) :=
  [[], [], [], [⟨"escape", -300⟩], [], [], [], [], [], []]

/-- Two spaces inside one response window, in chronological order. -/
def twoSpaces : List KeyEv := [⟨"space", 100⟩, ⟨"space", 450⟩]

/-- One no-response trial followed by one late-response trial, used to
instantiate the marker-order theorem. -/
def markerDemoInputs : List (List KeyEv) := [[], [⟨"space", 320⟩]]

/-! ## Arithmetic lemmas about the float model -/

theorem lg2F_bounds : ∀ f n : Nat, 1 ≤ n → n ≤ f → 2 ^ lg2F f n ≤ n ∧ n < 2 ^ (lg2F f n + 1) := by
  intro f
  induction f with
  | zero => intro n h1 h2; omega
  | succ f ih =>
    intro n h1 h2
    rw [lg2F]
    by_cases h : n ≤ 1
    · simp [h]; omega
    · have hn2 : 2 ≤ n := by omega
      have hhalf1 : 1 ≤ n / 2 := by omega
      have hhalf2 : n / 2 ≤ f := by omega
      obtain ⟨hlo, hhi⟩ := ih (n / 2) hhalf1 hhalf2
      simp only [h, if_false]
      constructor
      · calc 2 ^ (lg2F f (n / 2) + 1) = 2 * 2 ^ lg2F f (n / 2) := by ring
        _ ≤ 2 * (n / 2) := by omega
        _ ≤ n := by omega
      · calc n < 2 * (n / 2) + 2 := by omega
        _ ≤ 2 * 2 ^ (lg2F f (n / 2) + 1) := by omega
        _ = 2 ^ (lg2F f (n / 2) + 1 + 1) := by ring

theorem lg2_bounds (n : Nat) (h : 1 ≤ n) : 2 ^ lg2 n ≤ n ∧ n < 2 ^ (lg2 n + 1) :=
  lg2F_bounds n n h le_rfl

/-- Rounding to 53 bits never adds more than one unit in the last place:
`flNum P <= P + P / 2^52`. -/
theorem flNum_le (P : Nat) : flNum P ≤ P + P / 2 ^ 52 := by
  rw [flNum]
  by_cases hP : P < 2 ^ 53
  · rw [if_pos hP]; exact Nat.le_add_right _ _
  · rw [if_neg hP]
    have hP1 : 1 ≤ P := by
      have h53 : (0:Nat) < 2 ^ 53 := by positivity
      omega
    obtain ⟨hlo, hhi⟩ := lg2_bounds P hP1
    have hL : 53 ≤ lg2 P := by
      by_contra hc
      have h1 : (2:Nat) ^ (lg2 P + 1) ≤ 2 ^ 53 := Nat.pow_le_pow_right (by omega) (by omega)
      omega
    have h2r : 2 ^ (lg2 P - 52) * 2 ^ 52 ≤ P := by
      rw [← pow_add]
      have he : lg2 P - 52 + 52 = lg2 P := by omega
      rw [he]; exact hlo
    have h2r2 : 2 ^ (lg2 P - 52) ≤ P / 2 ^ 52 :=
      (Nat.le_div_iff_mul_le (by positivity)).mpr h2r
    have hq : P / 2 ^ (lg2 P - 52) * 2 ^ (lg2 P - 52) ≤ P := Nat.div_mul_le_self _ _
    have hstep : (P / 2 ^ (lg2 P - 52) + 1) * 2 ^ (lg2 P - 52) ≤ P + P / 2 ^ 52 := by
      rw [Nat.add_mul, one_mul]
      omega
    dsimp only
    split
    · exact hstep
    · calc P / 2 ^ (lg2 P - 52) * 2 ^ (lg2 P - 52)
          ≤ (P / 2 ^ (lg2 P - 52) + 1) * 2 ^ (lg2 P - 52) := by
            exact Nat.mul_le_mul_right _ (by omega)
        _ ≤ P + P / 2 ^ 52 := hstep

/-- The three category counts never exceed the requested total: the
rounded 30% plus twice the rounded 17.5% is at most `m`. -/
theorem pyCounts_sum_le (m : Nat) :
    pyCount SIG03 54 m + 2 * pyCount SIG0175 55 m ≤ m := by
  have hF : flNum m ≤ m + m / 2 ^ 52 := flNum_le m
  set F := flNum m with hFdef
  have hA : flNum (F * SIG03) ≤ F * SIG03 + F * SIG03 / 2 ^ 52 := flNum_le _
  have hB : flNum (F * SIG0175) ≤ F * SIG0175 + F * SIG0175 / 2 ^ 52 := flNum_le _
  set A := flNum (F * SIG03) with hAdef
  set B := flNum (F * SIG0175) with hBdef
  rw [pyCount, pyCount, ← hFdef, ← hAdef, ← hBdef]
  -- rewrite A / 2^54 as 2 * A / 2^55 and pull the 2 inside the division
  have e1 : A / 2 ^ 54 = 2 * A / 2 ^ 55 := by
    rw [show (2:Nat) ^ 55 = 2 * 2 ^ 54 by norm_num, Nat.mul_div_mul_left _ _ (by norm_num)]
  have e2 : 2 * (B / 2 ^ 55) ≤ 2 * B / 2 ^ 55 := Nat.mul_div_le_mul_div_assoc 2 B _
  have e3 : 2 * A / 2 ^ 55 + 2 * B / 2 ^ 55 ≤ (2 * A + 2 * B) / 2 ^ 55 := by
    rw [Nat.le_div_iff_mul_le (by positivity), Nat.add_mul]
    have h1 := Nat.div_mul_le_self (2 * A) (2 ^ 55)
    have h2 := Nat.div_mul_le_self (2 * B) (2 ^ 55)
    omega
  -- bound the numerator by F * C with C = 2*SIG03 + 2*SIG0175 + 10
  have hA2 : 2 * (F * SIG03 / 2 ^ 52) ≤ 6 * F := by
    calc 2 * (F * SIG03 / 2 ^ 52) ≤ 2 * (F * SIG03) / 2 ^ 52 :=
          Nat.mul_div_le_mul_div_assoc 2 _ _
      _ ≤ F * (6 * 2 ^ 52) / 2 ^ 52 := by
          apply Nat.div_le_div_right
          calc 2 * (F * SIG03) = F * (2 * SIG03) := by ring
            _ ≤ F * (6 * 2 ^ 52) := Nat.mul_le_mul_left _ (by norm_num [SIG03])
      _ = 6 * F := by
          rw [show F * (6 * 2 ^ 52) = F * 6 * 2 ^ 52 by ring,
            Nat.mul_div_cancel _ (by positivity)]
          ring
  have hB2 : 2 * (F * SIG0175 / 2 ^ 52) ≤ 4 * F := by
    calc 2 * (F * SIG0175 / 2 ^ 52) ≤ 2 * (F * SIG0175) / 2 ^ 52 :=
          Nat.mul_div_le_mul_div_assoc 2 _ _
      _ ≤ F * (4 * 2 ^ 52) / 2 ^ 52 := by
          apply Nat.div_le_div_right
          calc 2 * (F * SIG0175) = F * (2 * SIG0175) := by ring
            _ ≤ F * (4 * 2 ^ 52) := Nat.mul_le_mul_left _ (by norm_num [SIG0175])
      _ = 4 * F := by
          rw [show F * (4 * 2 ^ 52) = F * 4 * 2 ^ 52 by ring,
            Nat.mul_div_cancel _ (by positivity)]
          ring
  have hnum : 2 * A + 2 * B ≤ F * 23418718062326588 := by
    have : 2 * A + 2 * B ≤
        2 * (F * SIG03) + 2 * (F * SIG03 / 2 ^ 52) +
        (2 * (F * SIG0175) + 2 * (F * SIG0175 / 2 ^ 52)) := by omega
    calc 2 * A + 2 * B ≤
        2 * (F * SIG03) + 2 * (F * SIG03 / 2 ^ 52) +
        (2 * (F * SIG0175) + 2 * (F * SIG0175 / 2 ^ 52)) := this
      _ ≤ 2 * (F * SIG03) + 6 * F + (2 * (F * SIG0175) + 4 * F) := by omega
      _ = F * (2 * SIG03 + 2 * SIG0175 + 10) := by ring
      _ = F * 23418718062326588 := by norm_num [SIG03, SIG0175]
  -- bound F * C by m * (C + 7)
  have hFC : F * 23418718062326588 ≤ m * 23418718062326595 := by
    have h1 : F * 23418718062326588 ≤ (m + m / 2 ^ 52) * 23418718062326588 :=
      Nat.mul_le_mul_right _ hF
    have h2 : m / 2 ^ 52 * 23418718062326588 ≤ m * 23418718062326588 / 2 ^ 52 := by
      calc m / 2 ^ 52 * 23418718062326588 = 23418718062326588 * (m / 2 ^ 52) := by ring
        _ ≤ 23418718062326588 * m / 2 ^ 52 := Nat.mul_div_le_mul_div_assoc _ _ _
        _ = m * 23418718062326588 / 2 ^ 52 := by rw [Nat.mul_comm]
    have h3 : m * 23418718062326588 / 2 ^ 52 ≤ 7 * m := by
      calc m * 23418718062326588 / 2 ^ 52 ≤ m * (7 * 2 ^ 52) / 2 ^ 52 := by
            apply Nat.div_le_div_right
            exact Nat.mul_le_mul_left _ (by norm_num)
        _ = 7 * m := by
            rw [show m * (7 * 2 ^ 52) = m * 7 * 2 ^ 52 by ring,
              Nat.mul_div_cancel _ (by positivity)]
            ring
    calc F * 23418718062326588 ≤ (m + m / 2 ^ 52) * 23418718062326588 := h1
      _ = m * 23418718062326588 + m / 2 ^ 52 * 23418718062326588 := by ring
      _ ≤ m * 23418718062326588 + 7 * m := by omega
      _ = m * 23418718062326595 := by ring
  -- conclude
  have hfinal : (2 * A + 2 * B) / 2 ^ 55 ≤ m := by
    calc (2 * A + 2 * B) / 2 ^ 55 ≤ m * 23418718062326595 / 2 ^ 55 :=
          Nat.div_le_div_right (by omega)
      _ ≤ m * 2 ^ 55 / 2 ^ 55 := Nat.div_le_div_right (Nat.mul_le_mul_left _ (by norm_num))
      _ = m := Nat.mul_div_cancel _ (by positivity)
  omega

/-- For a nonnegative trial count the four computed counts in `Int` form:
the first three are the nonnegative float truncations and the fourth is
the exact remainder (itself nonnegative by `pyCounts_sum_le`). -/
theorem counts_spec (n : Int) (hn : 0 ≤ n) :
    target_count n = (pyCount SIG03 54 n.toNat : Int) ∧
    non_red_square_count n = (pyCount SIG0175 55 n.toNat : Int) ∧
    red_non_square_count n = (pyCount SIG0175 55 n.toNat : Int) ∧
    0 ≤ other_count n ∧
    (other_count n).toNat +
      (pyCount SIG03 54 n.toNat + 2 * pyCount SIG0175 55 n.toNat) = n.toNat := by
  have h := pyCounts_sum_le n.toNat
  have ht : target_count n = (pyCount SIG03 54 n.toNat : Int) := by
    rw [target_count, pyMulInt, if_pos hn]
  have ha : non_red_square_count n = (pyCount SIG0175 55 n.toNat : Int) := by
    rw [non_red_square_count, pyMulInt, if_pos hn]
  have hb : red_non_square_count n = (pyCount SIG0175 55 n.toNat : Int) := by
    rw [red_non_square_count, pyMulInt, if_pos hn]
  have ho : other_count n =
      n - target_count n - non_red_square_count n - red_non_square_count n := rfl
  refine ⟨ht, ha, hb, ?_, ?_⟩ <;> omega

/-! ## Generator lemmas -/

theorem choiceAt_mem (l : List α) (d : α) (k : Nat) (h : l ≠ []) : choiceAt l d k ∈ l := by
  have hl : 0 < l.length := List.length_pos.mpr h
  have hk : k % l.length < l.length := Nat.mod_lt _ hl
  rw [choiceAt, List.getD_eq_getElem l d hk]
  exact List.getElem_mem hk

theorem countP_replicate (p : α → Bool) (k : Nat) (a : α) :
    (List.replicate k a).countP p = if p a then k else 0 := by
  induction k with
  | zero => simp
  | succ k ih =>
    rw [List.replicate_succ, List.countP_cons, ih]
    by_cases h : p a <;> simp [h]

theorem mem_targetBlock {n : Int} {pt : PreTrial} (h : pt ∈ targetBlock n) :
    pt = ⟨"square", "red", true⟩ :=
  (List.eq_of_mem_replicate h)

theorem mem_nonRedSquareBlock {n : Int} {pick : Nat → Nat} {pt : PreTrial}
    (h : pt ∈ nonRedSquareBlock n pick) :
    pt.shape = "square" ∧ pt.color ≠ "red" ∧ pt.is_target = false := by
  simp only [nonRedSquareBlock, List.mem_map, List.mem_range] at h
  obtain ⟨j, -, rfl⟩ := h
  refine ⟨rfl, ?_, rfl⟩
  have hmem := choiceAt_mem nonRedColors "blue" (pick j) (by decide)
  exact (by decide : ∀ c ∈ nonRedColors, c ≠ "red") _ hmem

theorem mem_redNonSquareBlock {n : Int} {pick : Nat → Nat} {pt : PreTrial}
    (h : pt ∈ redNonSquareBlock n pick) :
    pt.shape ≠ "square" ∧ pt.color = "red" ∧ pt.is_target = false := by
  simp only [redNonSquareBlock, List.mem_map, List.mem_range] at h
  obtain ⟨j, -, rfl⟩ := h
  refine ⟨?_, rfl, rfl⟩
  have hmem := choiceAt_mem nonSquareShapes "circle" (pick (aOff n + j)) (by decide)
  exact (by decide : ∀ s ∈ nonSquareShapes, s ≠ "square") _ hmem

theorem mem_otherBlock {n : Int} {pick : Nat → Nat} {pt : PreTrial}
    (h : pt ∈ otherBlock n pick) :
    pt.shape ≠ "square" ∧ pt.color ≠ "red" ∧ pt.is_target = false := by
  simp only [otherBlock, List.mem_map, List.mem_range] at h
  obtain ⟨j, -, rfl⟩ := h
  refine ⟨?_, ?_, rfl⟩
  · have hmem := choiceAt_mem nonSquareShapes "circle" (pick (bOff n + 2 * j)) (by decide)
    exact (by decide : ∀ s ∈ nonSquareShapes, s ≠ "square") _ hmem
  · have hmem := choiceAt_mem nonRedColors "blue" (pick (bOff n + 2 * j + 1)) (by decide)
    exact (by decide : ∀ c ∈ nonRedColors, c ≠ "red") _ hmem

/-- Every pre-trial in the concatenated blocks has `is_target` equal to
the membership rule "square and red". -/
theorem preTrials_is_target {n : Int} {pick : Nat → Nat} {pt : PreTrial}
    (h : pt ∈ preTrials n pick) : pt.is_target = pTarget pt := by
  simp only [preTrials, List.mem_append] at h
  rcases h with ((h | h) | h) | h
  · rw [mem_targetBlock h]; decide
  · obtain ⟨h1, h2, h3⟩ := mem_nonRedSquareBlock h
    simp [pTarget, h1, h2, h3]
  · obtain ⟨h1, h2, h3⟩ := mem_redNonSquareBlock h
    simp [pTarget, h1, h2, h3]
  · obtain ⟨h1, h2, h3⟩ := mem_otherBlock h
    simp [pTarget, h1, h2, h3]

/-- Category counts of the concatenated blocks, one predicate at a time. -/
theorem countP_preTrials (n : Int) (pick : Nat → Nat) :
    (preTrials n pick).countP pTarget = (target_count n).toNat ∧
    (preTrials n pick).countP pSquareOther = (non_red_square_count n).toNat ∧
    (preTrials n pick).countP pRedOther = (red_non_square_count n).toNat ∧
    (preTrials n pick).countP pNeither = (other_count n).toNat := by
  have hz : ∀ (p : PreTrial → Bool) (l : List PreTrial),
      (∀ pt ∈ l, p pt = false) → l.countP p = 0 := by
    intro p l h
    exact List.countP_eq_zero.mpr (fun a ha => by rw [h a ha]; exact Bool.false_ne_true)
  have hf : ∀ (p : PreTrial → Bool) (l : List PreTrial),
      (∀ pt ∈ l, p pt = true) → l.countP p = l.length := by
    intro p l h
    exact List.countP_eq_length.mpr h
  have lenA : (nonRedSquareBlock n pick).length = (non_red_square_count n).toNat := by
    simp [nonRedSquareBlock]
  have lenB : (redNonSquareBlock n pick).length = (red_non_square_count n).toNat := by
    simp [redNonSquareBlock]
  have lenO : (otherBlock n pick).length = (other_count n).toNat := by
    simp [otherBlock]
  refine ⟨?_, ?_, ?_, ?_⟩ <;>
    simp only [preTrials, List.countP_append]
  · rw [targetBlock, countP_replicate,
      hz _ _ (fun pt h => by
        obtain ⟨h1, h2, -⟩ := mem_nonRedSquareBlock h; simp [pTarget, h1, h2]),
      hz _ _ (fun pt h => by
        obtain ⟨h1, h2, -⟩ := mem_redNonSquareBlock h; simp [pTarget, h1, h2]),
      hz _ _ (fun pt h => by
        obtain ⟨h1, h2, -⟩ := mem_otherBlock h; simp [pTarget, h1, h2])]
    simp [pTarget]
  · rw [targetBlock, countP_replicate,
      hf _ _ (fun pt h => by
        obtain ⟨h1, h2, -⟩ := mem_nonRedSquareBlock h; simp [pSquareOther, h1, h2]),
      hz _ _ (fun pt h => by
        obtain ⟨h1, h2, -⟩ := mem_redNonSquareBlock h; simp [pSquareOther, h1, h2]),
      hz _ _ (fun pt h => by
        obtain ⟨h1, h2, -⟩ := mem_otherBlock h; simp [pSquareOther, h1, h2])]
    rw [lenA]
    simp [pSquareOther]
  · rw [targetBlock, countP_replicate,
      hz _ _ (fun pt h => by
        obtain ⟨h1, h2, -⟩ := mem_nonRedSquareBlock h; simp [pRedOther, h1, h2]),
      hf _ _ (fun pt h => by
        obtain ⟨h1, h2, -⟩ := mem_redNonSquareBlock h; simp [pRedOther, h1, h2]),
      hz _ _ (fun pt h => by
        obtain ⟨h1, h2, -⟩ := mem_otherBlock h; simp [pRedOther, h1, h2])]
    rw [lenB]
    simp [pRedOther]
  · rw [targetBlock, countP_replicate,
      hz _ _ (fun pt h => by
        obtain ⟨h1, h2, -⟩ := mem_nonRedSquareBlock h; simp [pNeither, h1, h2]),
      hz _ _ (fun pt h => by
        obtain ⟨h1, h2, -⟩ := mem_redNonSquareBlock h; simp [pNeither, h1, h2]),
      hf _ _ (fun pt h => by
        obtain ⟨h1, h2, -⟩ := mem_otherBlock h; simp [pNeither, h1, h2])]
    rw [lenO]
    simp [pNeither]

/-- Length of the concatenated blocks: exactly the requested count, for
nonnegative `n`. -/
theorem preTrials_length (n : Int) (hn : 0 ≤ n) (pick : Nat → Nat) :
    (preTrials n pick).length = n.toNat := by
  obtain ⟨h1, h2, h3, h4, h5⟩ := counts_spec n hn
  simp only [preTrials, List.length_append, targetBlock, List.length_replicate,
    nonRedSquareBlock, redNonSquareBlock, otherBlock, List.length_map, List.length_range]
  omega

/-! ## zipWith lemmas: attaching the ISI list to the trial list -/

theorem zipWith_mk_map_isi : ∀ (ts : List PreTrial) (il : List Nat), ts.length = il.length →
    (List.zipWith (fun pt v => Trial.mk pt v) ts il).map (fun t => t.isi) = il
  | [], [], _ => rfl
  | [], _ :: _, h => by simp at h
  | _ :: _, [], h => by simp at h
  | pt :: ts, v :: il, h => by
    simp only [List.zipWith_cons_cons, List.map_cons]
    rw [zipWith_mk_map_isi ts il (by simpa using h)]

theorem zipWith_mk_countP (p : PreTrial → Bool) :
    ∀ (ts : List PreTrial) (il : List Nat), ts.length = il.length →
    (List.zipWith (fun pt v => Trial.mk pt v) ts il).countP (fun t => p t.toPreTrial) =
      ts.countP p
  | [], [], _ => rfl
  | [], _ :: _, h => by simp at h
  | _ :: _, [], h => by simp at h
  | pt :: ts, v :: il, h => by
    simp only [List.zipWith_cons_cons, List.countP_cons]
    rw [zipWith_mk_countP p ts il (by simpa using h)]

theorem zipWith_mk_mem {t : Trial} :
    ∀ {ts : List PreTrial} {il : List Nat},
    t ∈ List.zipWith (fun pt v => Trial.mk pt v) ts il → t.toPreTrial ∈ ts := by
  intro ts
  induction ts with
  | nil => intro il h; simp at h
  | cons pt ts ih =>
    intro il h
    cases il with
    | nil => simp at h
    | cons v il =>
      simp only [List.zipWith_cons_cons, List.mem_cons] at h
      rcases h with rfl | h
      · exact List.mem_cons_self _ _
      · exact List.mem_cons_of_mem _ (ih h)

/-! ## ISI pool lemmas -/

theorem isiBase_eq (len : Nat) :
    isiBase len = List.replicate (len / 4) 400 ++ List.replicate (len / 4) 600 ++
      List.replicate (len / 4) 800 ++ List.replicate (len / 4) 1000 := by
  simp [isiBase, isis, List.flatMap_cons, List.append_assoc]

theorem isiBase_length (len : Nat) : (isiBase len).length = 4 * (len / 4) := by
  rw [isiBase_eq]
  simp only [List.length_append, List.length_replicate]
  omega

theorem isiPool_length (len : Nat) (pick : Nat → Nat) (off : Nat) :
    (isiPool len pick off).length = len := by
  have h4 : 4 * (len / 4) ≤ len := by omega
  simp only [isiPool, List.length_append, isiBase_length, isiExtras,
    List.length_map, List.length_range]
  omega

theorem isiPool_mem {len pick off x} (h : x ∈ isiPool len pick off) : x ∈ isis := by
  simp only [isiPool, List.mem_append] at h
  rcases h with h | h
  · rw [isiBase_eq] at h
    simp only [List.mem_append, List.mem_replicate] at h
    rcases h with ((⟨-, rfl⟩ | ⟨-, rfl⟩) | ⟨-, rfl⟩) | ⟨-, rfl⟩ <;> decide
  · simp only [isiExtras, List.mem_map, List.mem_range] at h
    obtain ⟨j, -, rfl⟩ := h
    exact choiceAt_mem isis 400 (pick (off + j)) (by decide)

theorem isiPool_count_ge {len pick off} (v : Nat) (hv : v ∈ isis) :
    len / 4 ≤ (isiPool len pick off).count v := by
  have hbase : len / 4 ≤ (isiBase len).count v := by
    rw [isiBase_eq]
    simp only [List.count_append, List.count_replicate]
    fin_cases hv <;> simp
  calc len / 4 ≤ (isiBase len).count v := hbase
    _ ≤ (isiPool len pick off).count v := by
        rw [isiPool, List.count_append]; omega

/-- If every element of a list is one of the four ISI values, the four
counts add up to the length. -/
theorem count_four_isis : ∀ (l : List Nat), (∀ x ∈ l, x ∈ isis) →
    l.count 400 + l.count 600 + l.count 800 + l.count 1000 = l.length := by
  intro l
  induction l with
  | nil => intro h; simp
  | cons x l ih =>
    intro h
    have hx : x ∈ isis := h x (List.mem_cons_self x l)
    have hrest := ih (fun y hy => h y (List.mem_cons_of_mem x hy))
    simp only [List.count_cons, List.length_cons]
    fin_cases hx <;> simp <;> omega


/-! ## Trial-runner lemmas -/

theorem scoreTrial_responded (tr : Trial) (evs : List KeyEv) :
    (scoreTrial tr evs).responded =
      (collectedKeys evs).any (fun e => decide (e.key = "space")) := rfl

theorem scoreTrial_rt (tr : Trial) (evs : List KeyEv) :
    (scoreTrial tr evs).rt =
      ((collectedKeys evs).find? (fun e => decide (e.key = "space"))).map (fun e => e.t) := rfl

theorem any_filter_eq (p q : α → Bool) : ∀ l : List α,
    (l.filter q).any p = l.any (fun a => p a && q a) := by
  intro l
  induction l with
  | nil => rfl
  | cons a l ih =>
    by_cases h : q a <;> simp [List.filter_cons, h, ih, List.any_cons]

theorem find?_sorted_min (p : KeyEv → Bool) :
    ∀ l : List KeyEv, l.Pairwise (fun a b => a.t ≤ b.t) →
    ∀ e, l.find? p = some e → ∀ x ∈ l, p x → e.t ≤ x.t := by
  intro l
  induction l with
  | nil => intro _ e he; simp at he
  | cons a l ih =>
    intro hp e he x hx hpx
    rw [List.find?_cons] at he
    by_cases ha : p a
    · simp only [ha] at he
      injection he with he2
      subst he2
      rcases List.mem_cons.mp hx with rfl | hx2
      · exact le_refl _
      · exact (List.pairwise_cons.mp hp).1 x hx2
    · simp only [ha] at he
      rcases List.mem_cons.mp hx with rfl | hx2
      · exact absurd hpx ha
      · exact ih (List.pairwise_cons.mp hp).2 e he x hx2 hpx

/-- The session loop, on inputs that take no abort path, scores every
trial and emits the expected marker stream. -/
theorem runTrials_noAbort : ∀ (trials : List Trial) (inputs : List (List KeyEv)) (idx : Nat),
    NoAbortInputs inputs →
    runTrials trials inputs idx =
      ⟨expectedResults trials inputs, expectedMarkers trials inputs idx, false⟩ := by
  intro trials
  induction trials with
  | nil => intro inputs idx h; rfl
  | cons tr rest ih =>
    intro inputs idx h
    have hev : abortInLoop (inputs.headD []) = false ∧ postLoopEscape (inputs.headD []) = false := by
      cases inputs with
      | nil => exact ⟨rfl, rfl⟩
      | cons e es => exact h e (List.mem_cons_self e es)
    have htail : NoAbortInputs inputs.tail := by
      intro evs hevs
      apply h
      cases inputs with
      | nil => simp at hevs
      | cons e es => exact List.mem_cons_of_mem _ hevs
    rw [runTrials]
    simp only [hev.1, hev.2, Bool.false_eq_true, if_false, ih inputs.tail (idx + 1) htail]
    simp [expectedResults, expectedMarkers, trialMarkers, List.append_assoc]

/-! ## Claim theorems -/

set_option maxRecDepth 40000 in
/-- Claim C1 (amended): for every N > 0 and any outcomes of the random
choices and shuffles, the generator returns exactly N trials whose four
category counts are exactly the values the code computes — the IEEE-754
truncations `int(N * 0.30)` and `int(N * 0.175)` for the first three,
with the fourth category absorbing the remainder `N` minus their sum.
These truncations agree with the exact floors `3N/10` and `7N/40` for
every `N < 360`; the spec formula `floor(0.175 N)` first diverges from
the code at `N = 360` (see the counterexample theorem). -/
theorem create_trial_sequence_counts (n : Int) (hn : 0 < n)
    (sT : List PreTrial → List PreTrial) (sI : List Nat → List Nat) (pick : Nat → Nat)
    (hT : ∀ l, (sT l).Perm l) (hI : ∀ l, (sI l).Perm l) :
    CountsInvariant n sT sI pick ∧
    (∀ m : Nat, m < 360 →
      pyCount SIG03 54 m = 3 * m / 10 ∧ pyCount SIG0175 55 m = 7 * m / 40) := by
  constructor
  · have hn0 : 0 ≤ n := le_of_lt hn
    obtain ⟨hc1, hc2, hc3, hc4⟩ := countP_preTrials n pick
    obtain ⟨ht, ha, hb, ho1, ho2⟩ := counts_spec n hn0
    have hts : (sT (preTrials n pick)).Perm (preTrials n pick) := hT _
    have htslen : (sT (preTrials n pick)).length = n.toNat := by
      rw [hts.length_eq, preTrials_length n hn0 pick]
    have hillen : (isiAssignment n sT sI pick).length = (sT (preTrials n pick)).length := by
      rw [isiAssignment, (hI _).length_eq, isiPool_length]
    have hlen : (create_trial_sequence n sT sI pick).length = n.toNat := by
      rw [create_trial_sequence, List.length_zipWith, hillen, Nat.min_self, htslen]
    refine ⟨hlen, ?_, ?_, ?_, ?_⟩
    · rw [create_trial_sequence, zipWith_mk_countP pTarget _ _ hillen.symm,
        hts.countP_eq, hc1]
    · rw [create_trial_sequence, zipWith_mk_countP pSquareOther _ _ hillen.symm,
        hts.countP_eq, hc2]
    · rw [create_trial_sequence, zipWith_mk_countP pRedOther _ _ hillen.symm,
        hts.countP_eq, hc3]
    · rw [create_trial_sequence, zipWith_mk_countP pNeither _ _ hillen.symm,
        hts.countP_eq, hc4]
      omega
  · decide

set_option maxRecDepth 40000 in
/-- Claim C1 counterexample: at `N = 360` the code's non-red-square
count `int(360 * 0.175)` is 62, while the claimed `floor(0.175 * 360)`
is 63 (in CPython `360 * 0.175 == 62.99999999999999` because the double
nearest 0.175 is slightly below it).  The generated sequence therefore
has 62 non-red squares, not 63. -/
theorem counts_not_exact_floor_at_360 :
    (create_trial_sequence 360 id id pick0).countP (fun t => pSquareOther t.toPreTrial) = 62 ∧
    175 * 360 / 1000 = 63 :=
  ⟨by decide, by decide⟩

theorem create_trial_sequence_counts_witness :
    (0 : Int) < 10 ∧
    (CountsInvariant 10 id id pick0 ∧
      (∀ m : Nat, m < 360 →
        pyCount SIG03 54 m = 3 * m / 10 ∧ pyCount SIG0175 55 m = 7 * m / 40)) :=
  ⟨by decide, create_trial_sequence_counts 10 (by decide) id id pick0
    (fun l => List.Perm.refl l) (fun l => List.Perm.refl l)⟩

/-- Claim C5: for every generated sequence of length N (any random
outcomes), the assigned ISIs are exactly the entries of the
independently shuffled pool, taken positionally; the multiset contains
each of 400/600/800/1000 ms at least `N / 4` times, has total size N,
and every assigned value is one of the four. -/
theorem isi_distribution (n : Int) (hn : 0 < n)
    (sT : List PreTrial → List PreTrial) (sI : List Nat → List Nat) (pick : Nat → Nat)
    (hT : ∀ l, (sT l).Perm l) (hI : ∀ l, (sI l).Perm l) :
    IsiInvariant n sT sI pick := by
  have hn0 : 0 ≤ n := le_of_lt hn
  have hts : (sT (preTrials n pick)).Perm (preTrials n pick) := hT _
  have htslen : (sT (preTrials n pick)).length = n.toNat := by
    rw [hts.length_eq, preTrials_length n hn0 pick]
  have hpool : (isiAssignment n sT sI pick).Perm
      (isiPool (sT (preTrials n pick)).length pick (pickOff n)) := hI _
  have hillen : (isiAssignment n sT sI pick).length = n.toNat := by
    rw [hpool.length_eq, isiPool_length, htslen]
  have hmap : (create_trial_sequence n sT sI pick).map (fun t => t.isi) =
      isiAssignment n sT sI pick :=
    zipWith_mk_map_isi _ _ (by rw [htslen, hillen])
  have hmemisis : ∀ x ∈ isiAssignment n sT sI pick, x ∈ isis := by
    intro x hx
    exact isiPool_mem (hpool.mem_iff.mp hx)
  refine ⟨hmap, hillen, ?_, ?_, ?_⟩
  · intro v hv
    rw [hpool.count_eq v, htslen]
    exact isiPool_count_ge v hv
  · intro t ht
    have hmem : t.isi ∈ (create_trial_sequence n sT sI pick).map (fun t => t.isi) :=
      List.mem_map_of_mem _ ht
    rw [hmap] at hmem
    exact hmemisis _ hmem
  · rw [count_four_isis _ hmemisis, hillen]

theorem isi_distribution_witness :
    (0 : Int) < 14 ∧ IsiInvariant 14 id id pick0 :=
  ⟨by decide, isi_distribution 14 (by decide) id id pick0
    (fun l => List.Perm.refl l) (fun l => List.Perm.refl l)⟩

/-- Claim C7: `is_target` is set at trial creation and, for every trial
of every generated sequence, equals (shape = square and color = red);
no trial of the non-red-square block is red, none of the red-non-square
block is square, and the "neither" block avoids both target values. -/
theorem is_target_rule (n : Int)
    (sT : List PreTrial → List PreTrial) (sI : List Nat → List Nat) (pick : Nat → Nat)
    (hT : ∀ l, (sT l).Perm l) :
    TargetRule n sT sI pick := by
  refine ⟨?_, ?_, ?_, ?_, ?_⟩
  · intro t ht
    rw [create_trial_sequence] at ht
    have h1 : t.toPreTrial ∈ sT (preTrials n pick) := zipWith_mk_mem ht
    have h2 : t.toPreTrial ∈ preTrials n pick := (hT _).mem_iff.mp h1
    exact preTrials_is_target h2
  · intro pt hpt
    rw [mem_targetBlock hpt]
    exact ⟨rfl, rfl, rfl⟩
  · exact fun pt hpt => mem_nonRedSquareBlock hpt
  · exact fun pt hpt => mem_redNonSquareBlock hpt
  · exact fun pt hpt => mem_otherBlock hpt

theorem is_target_rule_witness :
    (∀ l : List PreTrial, (id l).Perm l) ∧ TargetRule 20 id id pick0 :=
  ⟨fun l => List.Perm.refl l, is_target_rule 20 id id pick0 (fun l => List.Perm.refl l)⟩

/-- All four block lists are empty when the requested count is not
positive (every computed count is then `<= 0` and `range`/`replicate`
of it produce nothing). -/
theorem blocks_nil (n : Int) (hn : n ≤ 0) (pick : Nat → Nat) :
    targetBlock n = [] ∧ nonRedSquareBlock n pick = [] ∧
    redNonSquareBlock n pick = [] ∧ otherBlock n pick = [] := by
  have hcounts : (target_count n).toNat = 0 ∧ (non_red_square_count n).toNat = 0 ∧
      (red_non_square_count n).toNat = 0 ∧ (other_count n).toNat = 0 := by
    rcases lt_or_eq_of_le hn with hlt | heq
    · have hneg : ¬(0 ≤ n) := by omega
      have h := pyCounts_sum_le (-n).toNat
      simp only [target_count, non_red_square_count, red_non_square_count, other_count,
        pyMulInt, if_neg hneg]
      omega
    · subst heq
      decide
  obtain ⟨h1, h2, h3, h4⟩ := hcounts
  rw [targetBlock, h1, nonRedSquareBlock, h2, redNonSquareBlock, h3, otherBlock, h4]
  exact ⟨rfl, rfl, rfl, rfl⟩

/-- Claim C10: for every n ≤ 0, `create_trial_sequence` returns normally
with the empty list — all four category blocks are empty, the ISI pool
stays empty, and the caller receives a zero-length sequence (the model
is a total function: there is no exception path in the source). -/
theorem nonpositive_empty_sequence (n : Int) (hn : n ≤ 0)
    (sT : List PreTrial → List PreTrial) (sI : List Nat → List Nat) (pick : Nat → Nat)
    (hT : ∀ l, (sT l).Perm l) (hI : ∀ l, (sI l).Perm l) :
    targetBlock n = [] ∧ nonRedSquareBlock n pick = [] ∧
    redNonSquareBlock n pick = [] ∧ otherBlock n pick = [] ∧
    isiAssignment n sT sI pick = [] ∧ create_trial_sequence n sT sI pick = [] := by
  obtain ⟨b1, b2, b3, b4⟩ := blocks_nil n hn pick
  have hpre : preTrials n pick = [] := by
    rw [preTrials, b1, b2, b3, b4]
    rfl
  have hsT : sT (preTrials n pick) = [] := by
    rw [hpre]
    exact (hT []).eq_nil
  have hpool : isiPool (sT (preTrials n pick)).length pick (pickOff n) = [] := by
    rw [hsT]
    simp [isiPool, isiBase_eq, isiExtras]
  have hisi : isiAssignment n sT sI pick = [] := by
    rw [isiAssignment, hpool]
    exact (hI []).eq_nil
  have hcreate : create_trial_sequence n sT sI pick = [] := by
    rw [create_trial_sequence, hsT]
    rfl
  exact ⟨b1, b2, b3, b4, hisi, hcreate⟩

theorem nonpositive_empty_sequence_witness :
    (0 : Int) ≤ 0 ∧
    (targetBlock 0 = [] ∧ nonRedSquareBlock 0 pick0 = [] ∧
     redNonSquareBlock 0 pick0 = [] ∧ otherBlock 0 pick0 = [] ∧
     isiAssignment 0 id id pick0 = [] ∧ create_trial_sequence 0 id id pick0 = []) :=
  ⟨by decide, nonpositive_empty_sequence 0 (by decide) id id pick0
    (fun l => List.Perm.refl l) (fun l => List.Perm.refl l)⟩

/-- Claim C8 counterexample: called with the invalid count -5, the
generator does not reject or fail — it returns the empty list as an
ordinary value (the source has no validation and no raise statement;
`range` of the negative counts simply produces nothing). -/
theorem no_rejection_for_nonpositive :
    create_trial_sequence (-5) id id pick0 = [] := by decide

/-- Claim C8 (amended): a call with n ≤ 0 is not rejected: it returns
normally with a zero-length trial list; generation is a total function
of its inputs. -/
theorem nonpositive_returns_normally (n : Int) (hn : n ≤ 0)
    (sT : List PreTrial → List PreTrial) (sI : List Nat → List Nat) (pick : Nat → Nat)
    (hT : ∀ l, (sT l).Perm l) :
    (create_trial_sequence n sT sI pick).length = 0 := by
  obtain ⟨b1, b2, b3, b4⟩ := blocks_nil n hn pick
  have hpre : preTrials n pick = [] := by
    rw [preTrials, b1, b2, b3, b4]
    rfl
  have hsT : sT (preTrials n pick) = [] := by
    rw [hpre]
    exact (hT []).eq_nil
  rw [create_trial_sequence, hsT]
  rfl

theorem nonpositive_returns_normally_witness :
    (-3 : Int) ≤ 0 ∧ (create_trial_sequence (-3) id id pick0).length = 0 :=
  ⟨by decide, nonpositive_returns_normally (-3) (by decide) id id pick0
    (fun l => List.Perm.refl l)⟩

/-- Claim C2: evaluation of the main loop at the inputs that separate
the implemented response window from the specified one.  The loop
condition `trial_clock.getTime() < timeout` measures `timeout = 0.5 s`
from stimulus ONSET (the clock is created at line 275, before the
200 ms presentation), so a space 600 ms after onset — inside the
claimed 700 ms window and 400 ms after offset, inside the window the
comment on line 284 describes — is not collected; a space 350 ms after
onset (after offset, within 500 ms of onset) is collected; and a space
pressed before onset (buffered during the ISI wait) is collected by
`event.getKeys` at line 276 and scored with a negative reaction time,
contradicting "no input accepted during the ISI". -/
theorem response_window_closes_500ms_after_onset :
    (runSession [trialRedSquare] [[⟨"space", 600⟩]]).results =
      [⟨trialRedSquare, false, none, false⟩] ∧
    (runSession [trialRedSquare] [[⟨"space", 350⟩]]).results =
      [⟨trialRedSquare, true, some 350, true⟩] ∧
    (runSession [trialRedSquare] [[⟨"space", -100⟩]]).results =
      [⟨trialRedSquare, true, some (-100), true⟩] := by
  refine ⟨by decide, by decide, by decide⟩

/-- Claim C3 counterexample: a space arriving exactly at the closing
deadline (t = 500 ms on the trial clock) is NOT collected — the loop
guard is a strict inequality — while one tick earlier (t = 499 ms) is.
The claimed inclusive boundary is therefore exclusive in the code. -/
theorem deadline_response_excluded :
    (runSession [trialRedSquare] [[⟨"space", 500⟩]]).results =
      [⟨trialRedSquare, false, none, false⟩] ∧
    (runSession [trialRedSquare] [[⟨"space", 499⟩]]).results =
      [⟨trialRedSquare, true, some 499, true⟩] := by
  refine ⟨by decide, by decide⟩

/-- Claim C3 (amended): for chronologically ordered key events, a trial
responds iff some space key has timestamp strictly below the deadline
(500 ms after onset; the boundary is exclusive, so a response exactly at
the deadline is excluded and one tick before is included), and the
recorded reaction time is the timestamp of the FIRST such space: any
later spaces are ignored for scoring. -/
theorem first_response_scoring (tr : Trial) (evs : List KeyEv)
    (hs : evs.Pairwise (fun a b => a.t ≤ b.t)) :
    (scoreTrial tr evs).responded =
      evs.any (fun e => decide (e.key = "space") && decide (e.t < timeoutMs)) ∧
    (∀ L : Int, (scoreTrial tr evs).rt = some L →
      (∃ e ∈ evs, e.key = "space" ∧ e.t < timeoutMs ∧ e.t = L) ∧
      (∀ e ∈ evs, e.key = "space" → e.t < timeoutMs → L ≤ e.t)) := by
  constructor
  · rw [scoreTrial_responded, collectedKeys, any_filter_eq]
  · intro L hL
    rw [scoreTrial_rt] at hL
    obtain ⟨e, hfind, hLe⟩ := Option.map_eq_some'.mp hL
    have hpe := List.find?_some hfind
    have hmem0 := List.mem_of_find?_eq_some hfind
    rw [collectedKeys, List.mem_filter] at hmem0
    obtain ⟨hmem, htlt⟩ := hmem0
    refine ⟨⟨e, hmem, by simpa using hpe, by simpa using htlt, hLe⟩, ?_⟩
    intro x hx hkx htx
    have hxmem : x ∈ collectedKeys evs := by
      rw [collectedKeys, List.mem_filter]
      exact ⟨hx, by simpa using htx⟩
    have hpair : (collectedKeys evs).Pairwise (fun a b => a.t ≤ b.t) := hs.filter _
    have hmin := find?_sorted_min _ _ hpair e hfind x hxmem (by simpa using hkx)
    omega

theorem first_response_scoring_witness :
    twoSpaces.Pairwise (fun a b => a.t ≤ b.t) ∧
    ((scoreTrial trialBlueCircle twoSpaces).responded =
      twoSpaces.any (fun e => decide (e.key = "space") && decide (e.t < timeoutMs)) ∧
    (∀ L : Int, (scoreTrial trialBlueCircle twoSpaces).rt = some L →
      (∃ e ∈ twoSpaces, e.key = "space" ∧ e.t < timeoutMs ∧ e.t = L) ∧
      (∀ e ∈ twoSpaces, e.key = "space" → e.t < timeoutMs → L ≤ e.t))) :=
  ⟨by decide, first_response_scoring trialBlueCircle twoSpaces (by decide)⟩

/-- Claim C4: with N = 10 and a single escape pressed during trial 4's
ISI wait (and no other key event anywhere), the session does NOT abort:
the buffered escape is swallowed by `event.getKeys` at stimulus onset
(line 276), the in-loop abort check (lines 287-293) never fires because
no later key event makes `these_keys` nonempty, and the post-trial check
(line 313) finds the buffer already drained.  All 10 trials resolve, a
TrialResult is written for trial 4, no "aborted" marker is emitted, and
the session runs to completion — against the claimed immediate abort
with exactly 3 results. -/
theorem escape_during_isi_not_aborting :
    (runSession tenTrials escapeDuringIsi4).results.length = 10 ∧
    (runSession tenTrials escapeDuringIsi4).markers.count Marker.abortedMark = 0 ∧
    (runSession tenTrials escapeDuringIsi4).quitEarly = false := by
  refine ⟨by decide, by decide, by decide⟩

/-- Claim C6: for every resolved trial, `correct` is exactly
`(is_target and responded) or (not is_target and not responded)`
(source line 307); a lone space at latency L inside the window yields
`{responded := true, rt := some L, correct := is_target}`, covering the
target-hit and false-alarm quadrants, and no key event yields
`{responded := false, rt := none, correct := not is_target}`, covering
the miss and correct-rejection quadrants. -/
theorem scoring_rule (tr : Trial) (L : Int) (h0 : 0 ≤ L) (h1 : L < timeoutMs) :
    (∀ evs, (scoreTrial tr evs).correct =
      ((tr.is_target && (scoreTrial tr evs).responded) ||
       (!tr.is_target && !(scoreTrial tr evs).responded))) ∧
    scoreTrial tr [⟨"space", L⟩] = ⟨tr, true, some L, tr.is_target⟩ ∧
    scoreTrial tr [] = ⟨tr, false, none, !tr.is_target⟩ := by
  refine ⟨fun evs => rfl, ?_, ?_⟩
  · have hc : collectedKeys [⟨"space", L⟩] = [⟨"space", L⟩] := by
      simp [collectedKeys, h1]
    simp [scoreTrial, hc]
  · simp [scoreTrial, collectedKeys]

theorem scoring_rule_witness :
    (0 : Int) ≤ 100 ∧ (100 : Int) < timeoutMs ∧
    ((∀ evs, (scoreTrial trialRedSquare evs).correct =
      ((trialRedSquare.is_target && (scoreTrial trialRedSquare evs).responded) ||
       (!trialRedSquare.is_target && !(scoreTrial trialRedSquare evs).responded))) ∧
    scoreTrial trialRedSquare [⟨"space", 100⟩] =
      ⟨trialRedSquare, true, some 100, trialRedSquare.is_target⟩ ∧
    scoreTrial trialRedSquare [] = ⟨trialRedSquare, false, none, !trialRedSquare.is_target⟩) :=
  ⟨by decide, by decide, scoring_rule trialRedSquare 100 (by decide) (by decide)⟩

/-- Claim C9 counterexample: a session of one resolved no-response trial
emits exactly ISI-start, stimulus-onset (with shape, color, target
flag), stimulus-offset, and the session-completion marker.  No event is
emitted at window close: there is no "trial-resolved" marker carrying
the TrialResult anywhere in the source — the scored record goes only to
the CSV result sink, and a `response_{n}_{rt}` marker is pushed only
when a response occurred. -/
theorem no_resolution_event_emitted :
    (runSession [trialBlueCircle] [[]]).markers =
      [Marker.isiStart 1, Marker.stim 1 "circle" "blue" false, Marker.stimOffset 1,
       Marker.completeMark] := by decide

/-- Claim C9 (amended): for every session whose inputs take no abort
path, the emitted markers are exactly, per trial in order: isi-start,
stimulus-onset carrying shape/color/target, stimulus-offset, then a
response marker with the reaction time iff a space was collected —
followed by the completion marker; one TrialResult per trial goes to the
result sink, and no marker carries a TrialResult. -/
theorem lifecycle_marker_order (trials : List Trial) (inputs : List (List KeyEv))
    (h : NoAbortInputs inputs) :
    (runSession trials inputs).markers = expectedMarkers trials inputs 1 ∧
    (runSession trials inputs).results = expectedResults trials inputs ∧
    (runSession trials inputs).quitEarly = false := by
  rw [runSession, runTrials_noAbort trials inputs 1 h]
  exact ⟨rfl, rfl, rfl⟩

theorem lifecycle_marker_order_witness :
    NoAbortInputs markerDemoInputs ∧
    ((runSession [trialBlueCircle, trialRedSquare] markerDemoInputs).markers =
      expectedMarkers [trialBlueCircle, trialRedSquare] markerDemoInputs 1 ∧
    (runSession [trialBlueCircle, trialRedSquare] markerDemoInputs).results =
      expectedResults [trialBlueCircle, trialRedSquare] markerDemoInputs ∧
    (runSession [trialBlueCircle, trialRedSquare] markerDemoInputs).quitEarly = false) :=
  ⟨by intro evs hevs; fin_cases hevs <;> exact ⟨by decide, by decide⟩,
   lifecycle_marker_order [trialBlueCircle, trialRedSquare] markerDemoInputs
    (by intro evs hevs; fin_cases hevs <;> exact ⟨by decide, by decide⟩)⟩

end CCPT
